import Mathlib

/-!
Shallow embedding of the `card_game` repository.

The repository has two source files: `src/cards.rs` (a library module with a
visibility flag on cards and a masking-aware renderer) and `src/main.rs`
(which contains its own copy of the deck model without the visibility flag,
plus the game loop).  Definitions below are translated from those files;
each doc comment names the Rust item it embeds.  `u32`/`u8`/`usize` values
are modelled as `Nat` (no computation here approaches any overflow bound),
and Rust functions that can panic are modelled as `Option`/`Except`
returning `none`/`error` exactly on the panicking branches.
-/

/-- Suit enum, `src/cards.rs` lines 6-12 (an identical copy sits in
`src/main.rs` lines 12-18).  The Rust enum carries explicit discriminants
Spades=1, Diamonds=2, Hearts=3, Clubs=4. -/
inductive Suit where
  | Spades
  | Diamonds
  | Hearts
  | Clubs
deriving DecidableEq, Fintype

/-- Discriminant of a suit: the value of `self.suit as u32` used by
`Card::value`, and also the order key of the derived `Ord` (declaration
order and discriminant order coincide for this enum). -/
def Suit.ord : Suit → Nat
  | .Spades => 1
  | .Diamonds => 2
  | .Hearts => 3
  | .Clubs => 4

/-- Display impl for `Suit`, `src/cards.rs` lines 15-25.  In `cards.rs` the
glyph is wrapped in `ansi_term` colour escapes, which are zero-width
terminal styling; the copy in `main.rs` lines 21-31 emits exactly these bare
glyphs.  We model the displayed text as the glyph alone. -/
def Suit.glyph : Suit → String
  | .Spades => "♠"
  | .Diamonds => "♦"
  | .Hearts => "♥"
  | .Clubs => "♣"

/-- Rank enum, `src/cards.rs` lines 28-43 (copy in `src/main.rs` lines
34-49), declared in the order Two, Three, ..., King, Ace. -/
inductive Rank where
  | Two
  | Three
  | Four
  | Five
  | Six
  | Seven
  | Eight
  | Nine
  | Ten
  | Jack
  | Queen
  | King
  | Ace
deriving DecidableEq, Fintype

/-- `Rank::value`, `src/cards.rs` lines 47-63 (copy in `src/main.rs` lines
53-69). -/
def Rank.value : Rank → Nat
  | .Two => 2
  | .Three => 3
  | .Four => 4
  | .Five => 5
  | .Six => 6
  | .Seven => 7
  | .Eight => 8
  | .Nine => 9
  | .Ten => 10
  | .Jack => 10
  | .Queen => 10
  | .King => 10
  | .Ace => 11

/-- Declaration index of a rank: the key compared by the derived
`PartialOrd`/`Ord` on `Rank` (Rust derives compare enum variants by
declaration order). -/
def Rank.idx : Rank → Nat
  | .Two => 0
  | .Three => 1
  | .Four => 2
  | .Five => 3
  | .Six => 4
  | .Seven => 5
  | .Eight => 6
  | .Nine => 7
  | .Ten => 8
  | .Jack => 9
  | .Queen => 10
  | .King => 11
  | .Ace => 12

/-- Display impl for `Rank`, `src/cards.rs` lines 67-86 (copy in
`src/main.rs` lines 73-92). -/
def Rank.text : Rank → String
  | .Two => "2"
  | .Three => "3"
  | .Four => "4"
  | .Five => "5"
  | .Six => "6"
  | .Seven => "7"
  | .Eight => "8"
  | .Nine => "9"
  | .Ten => "10"
  | .Jack => "J"
  | .Queen => "Q"
  | .King => "K"
  | .Ace => "A"

/-- `static SUITS`, `src/cards.rs` line 89. -/
def SUITS : List Suit := [.Spades, .Diamonds, .Hearts, .Clubs]

/-- `static RANKS`, `src/cards.rs` lines 92-106. -/
def RANKS : List Rank :=
  [.Two, .Three, .Four, .Five, .Six, .Seven, .Eight, .Nine, .Ten, .Jack,
   .Queen, .King, .Ace]

/-- `CardState` enum, `src/cards.rs` lines 108-112, declared Visible then
Hidden. -/
inductive CardState where
  | Visible
  | Hidden
deriving DecidableEq, Fintype

/-- Declaration index of a card state, the key compared by its derived
`Ord` (Visible before Hidden). -/
def CardState.idx : CardState → Nat
  | .Visible => 0
  | .Hidden => 1

/-- `Card` struct of `src/cards.rs` lines 115-120: suit, rank and a
visibility flag. -/
structure Card where
  suit : Suit
  rank : Rank
  state : CardState
deriving DecidableEq, Fintype

/-- `Card::new`, `src/cards.rs` lines 134-140: the state defaults to
Hidden. -/
def Card.new (suit : Suit) (rank : Rank) : Card :=
  { suit := suit, rank := rank, state := .Hidden }

/-- `Card::toggle`, `src/cards.rs` lines 123-128. -/
def Card.toggle (c : Card) : Card :=
  match c.state with
  | .Visible => { c with state := .Hidden }
  | .Hidden => { c with state := .Visible }

/-- `Card::value`, `src/cards.rs` lines 154-156: suit discriminant times
rank value. -/
def Card.value (c : Card) : Nat :=
  c.suit.ord * c.rank.value

/-- Strict comparison of the derived `Ord` on `Card` (`src/cards.rs` line
115): a Rust derive compares the fields lexicographically in declaration
order, so suit first, then rank, then state, each by declaration index. -/
def Card.lt (a b : Card) : Bool :=
  decide (a.suit.ord < b.suit.ord) ||
    (a.suit == b.suit &&
      (decide (a.rank.idx < b.rank.idx) ||
        (a.rank == b.rank && decide (a.state.idx < b.state.idx))))

/-- Non-strict comparison of the derived `Ord` on `Card`. -/
def Card.le (a b : Card) : Bool :=
  Card.lt a b || a == b

/-- `DeckBuilder::new`, `src/cards.rs` lines 164-174: for each rank in
RANKS, for each suit in SUITS, push `Card::new(suit, rank)`. -/
def DeckBuilder.new : List Card :=
  RANKS.flatMap fun rank => SUITS.map fun suit => Card.new suit rank

/-- `Card` struct of `src/main.rs` lines 113-117: the copy of the deck
model inside `main.rs` has no visibility flag. -/
structure MCard where
  suit : Suit
  rank : Rank
deriving DecidableEq, Fintype

/-- `Card::new` of `src/main.rs` lines 122-124. -/
def MCard.new (suit : Suit) (rank : Rank) : MCard :=
  { suit := suit, rank := rank }

/-- `Card::value` of `src/main.rs` lines 138-140. -/
def MCard.value (c : MCard) : Nat :=
  c.suit.ord * c.rank.value

/-- Strict comparison of the derived `Ord` on the `main.rs` `Card`
(`src/main.rs` line 113): suit first, then rank. -/
def MCard.lt (a b : MCard) : Bool :=
  decide (a.suit.ord < b.suit.ord) ||
    (a.suit == b.suit && decide (a.rank.idx < b.rank.idx))

/-- Non-strict comparison of the derived `Ord` on the `main.rs` `Card`. -/
def MCard.le (a b : MCard) : Bool :=
  MCard.lt a b || a == b

/-- `DeckBuilder::new` of `src/main.rs` lines 148-158. -/
def MDeckBuilder.new : List MCard :=
  RANKS.flatMap fun rank => SUITS.map fun suit => MCard.new suit rank

/-- `Vec::sort` on a hand (`src/main.rs` line 412): Rust's stable sort by
the derived `Ord`. -/
def sortHand (l : List MCard) : List MCard :=
  l.mergeSort MCard.le

/-- `Vec::sort` on a hand of `cards.rs` cards (same stable sort, by the
derived `Ord` of the stateful `Card`). -/
def sortHandC (l : List Card) : List Card :=
  l.mergeSort Card.le

/-- The masked cell a hidden card contributes to every interior row,
`src/cards.rs` lines 271-272 and analogous arms: the eleven frame
characters followed by the one-space column separator. -/
def maskedCell : String := "|#########| "

/-- One card column of `card_printer::print_end`, `src/cards.rs` lines
259-265: the border is printed once per card regardless of its state,
followed by the separator space. -/
def endCell (_ : Card) : String := "*---------* "

/-- One card column of `card_printer::print_empty_section`, `src/cards.rs`
lines 267-281. -/
def emptyCell (c : Card) : String :=
  match c.state with
  | .Hidden => maskedCell
  | .Visible => "|         | "

/-- One card column of `card_printer::print_left_rank`, `src/cards.rs`
lines 283-302: the Ten arm emits one less padding space because its rank
text is two characters wide. -/
def leftRankCell (c : Card) : String :=
  match c.state with
  | .Hidden => maskedCell
  | .Visible =>
    match c.rank with
    | .Ten => "| " ++ c.rank.text ++ "      |" ++ " "
    | _ => "| " ++ c.rank.text ++ "       |" ++ " "

/-- One card column of `card_printer::print_right_rank`, `src/cards.rs`
lines 304-322. -/
def rightRankCell (c : Card) : String :=
  match c.state with
  | .Hidden => maskedCell
  | .Visible =>
    match c.rank with
    | .Ten => "|      " ++ c.rank.text ++ " |" ++ " "
    | _ => "|       " ++ c.rank.text ++ " |" ++ " "

/-- One card column of `card_printer::print_suit`, `src/cards.rs` lines
324-339. -/
def suitCell (c : Card) : String :=
  match c.state with
  | .Hidden => maskedCell
  | .Visible => "|    " ++ c.suit.glyph ++ "    |" ++ " "

/-- One column of `card_printer::print_index`, `src/cards.rs` lines
341-347. -/
def indexCell (idx : Nat) : String :=
  "     " ++ toString idx ++ "     " ++ " "

/-- `card_printer::print_end` as the line of text it writes. -/
def print_end (hand : List Card) : String :=
  String.join (hand.map endCell)

/-- `card_printer::print_empty_section` as the line of text it writes. -/
def print_empty_section (hand : List Card) : String :=
  String.join (hand.map emptyCell)

/-- `card_printer::print_left_rank` as the line of text it writes. -/
def print_left_rank (hand : List Card) : String :=
  String.join (hand.map leftRankCell)

/-- `card_printer::print_right_rank` as the line of text it writes. -/
def print_right_rank (hand : List Card) : String :=
  String.join (hand.map rightRankCell)

/-- `card_printer::print_suit` as the line of text it writes. -/
def print_suit (hand : List Card) : String :=
  String.join (hand.map suitCell)

/-- `card_printer::print_index` as the line of text it writes (the loop
enumerates the hand but uses only the index). -/
def print_index (hand : List Card) : String :=
  String.join ((List.range hand.length).map indexCell)

/-- `card_printer::display_hand`, `src/cards.rs` lines 349-361, as the
sequence of lines it writes: border, left rank, blank, suit, blank, right
rank, border, and optionally the index line.  The Rust function prints the
lines to the terminal; we return them, per the renderer contract. -/
def display_hand (hand : List Card) (show_index : Bool) : List String :=
  [print_end hand, print_left_rank hand, print_empty_section hand,
   print_suit hand, print_empty_section hand, print_right_rank hand,
   print_end hand] ++ (if show_index then [print_index hand] else [])

/-- `GameBuilder` struct, `src/main.rs` lines 307-310: the only
configuration state is the player count (a `u8`). -/
structure GameBuilder where
  player_count : Nat
deriving DecidableEq

/-- `GameBuilder::new`, `src/main.rs` lines 314-317: the default player
count is 2. -/
def GameBuilder.new : GameBuilder :=
  { player_count := 2 }

/-- `GameBuilder::players`, `src/main.rs` lines 320-327: counts 0 and 1
panic, counts 2 through 5 are stored unchanged, larger counts panic.  The
panics are modelled as `Except.error` carrying the panic message. -/
def GameBuilder.players (gb : GameBuilder) (count : Nat) :
    Except String GameBuilder :=
  if count ≤ 1 then .error "Must have more than 1 player."
  else if count ≤ 5 then .ok { gb with player_count := count }
  else .error "Too many players."

/-- `Game` struct, `src/main.rs` lines 353-357. -/
structure Game where
  deck : List MCard
  players : List (List MCard)
  turn : Nat
deriving DecidableEq

/-- `GameBuilder::spawn`, `src/main.rs` lines 330-344: a fresh deck, one
empty hand per player, turn 0. -/
def GameBuilder.spawn (gb : GameBuilder) : Game :=
  { deck := MDeckBuilder.new
    players := List.replicate gb.player_count []
    turn := 0 }

/-- `score_hand`, `src/main.rs` lines 348-350. -/
def score_hand (hand : List MCard) : Nat :=
  hand.foldl (fun sum card => sum + card.value) 0

/-- `Game::is_over`, `src/main.rs` lines 366-370: the game is complete
when every player holds more than 2 cards. -/
def Game.is_over (g : Game) : Bool :=
  g.players.all fun card => decide (2 < card.length)

/-- `Game::advance`, `src/main.rs` lines 399-415: pop the last card of the
deck (`unwrap` panics on an empty deck, modelled as `none`), give it to
player `turn % players.len()` (`%` by zero and the Vec indexing would
panic if there were no players, also modelled as `none`), re-sort that
hand, and increment the turn. -/
def Game.advance (g : Game) : Option Game :=
  match g.deck.getLast? with
  | none => none
  | some card =>
    if g.players.length = 0 then none
    else
      let player := g.turn % g.players.length
      some { deck := g.deck.dropLast
             players :=
               g.players.set player
                 (sortHand (g.players.getD player [] ++ [card]))
             turn := g.turn + 1 }

/-- Fold of `Game::show_winner`, `src/main.rs` lines 372-386: scan the
hands in player order keeping the first hand whose score strictly exceeds
the best seen so far (which starts at 0). -/
def winnerAux : List (List MCard) → Nat → Nat → Nat → Nat
  | [], _, winner, _ => winner
  | hand :: rest, player, winner, winning_score =>
    if score_hand hand > winning_score then
      winnerAux rest (player + 1) player (score_hand hand)
    else
      winnerAux rest (player + 1) winner winning_score

/-- `Game::show_winner` as the player index it prints. -/
def Game.show_winner (g : Game) : Nat :=
  winnerAux g.players 0 0 0

/-- The `main` game loop, `src/main.rs` lines 423-425: `while !is_over,
advance`, with explicit fuel (the loop in `main` is unbounded; any fuel at
least as large as the number of deals performed yields the same result,
and `none` is returned if fuel runs out or a panic branch is hit). -/
def Game.run : Nat → Game → Option Game
  | 0, g => if g.is_over then some g else none
  | fuel + 1, g =>
    if g.is_over then some g
    else
      match g.advance with
      | none => none
      | some g2 => Game.run fuel g2

/-- Game states reachable in a single game, `src/main.rs` `main` lines
418-430: start from a spawned game, shuffle the deck (an arbitrary
permutation, `Game::shuffle_deck` lines 360-364), and advance.  The
relation is deliberately a superset of the trace of `main` (it allows
shuffling at any point and any player count), which only strengthens the
invariants proved over it. -/
inductive Reachable (p : Nat) : Game → Prop where
  | spawned : Reachable p (GameBuilder.mk p).spawn
  | shuffled {g : Game} {d2 : List MCard} :
      Reachable p g → g.deck.Perm d2 →
      Reachable p { deck := d2, players := g.players, turn := g.turn }
  | advanced {g g2 : Game} :
      Reachable p g → g.advance = some g2 → Reachable p g2

/-- Modelled from the spec (claim C1 wording): the suit ordinal weight
table Spades=1, Diamonds=2, Hearts=3, Clubs=4. -/
def specSuitWeight : Suit → Nat
  | .Spades => 1
  | .Diamonds => 2
  | .Hearts => 3
  | .Clubs => 4

/-- Modelled from the spec (claim C1 wording): the rank point table,
Two..Nine map to 2..9, Ten, Jack, Queen and King map to 10, Ace to 11. -/
def specRankPoints : Rank → Nat
  | .Two => 2
  | .Three => 3
  | .Four => 4
  | .Five => 5
  | .Six => 6
  | .Seven => 7
  | .Eight => 8
  | .Nine => 9
  | .Ten => 10
  | .Jack => 10
  | .Queen => 10
  | .King => 10
  | .Ace => 11

/-- Modelled from the spec (section 7, claim C6 wording): construction
accepts a cards-per-hand count in 3..=5 and a player count in 2..=5, and
rejects anything else.  The code has no cards-per-hand configuration at
all, so this spec-side predicate exists to be compared with the source's
`GameBuilder`. -/
def specConfigOk (cards players : Nat) : Bool :=
  decide (3 ≤ cards) && decide (cards ≤ 5) &&
    decide (2 ≤ players) && decide (players ≤ 5)

/-- The apostrophe character (code point 39), used by the `main.rs` hand
header text. -/
def apostrophe : String := String.singleton (Char.ofNat 39)

/-- One card column of the `main.rs` `card_printer::print_left_rank`,
`src/main.rs` lines 258-268: same format arms as the `cards.rs` renderer
but with no visibility flag, so every card shows its rank. -/
def mLeftRankCell (c : MCard) : String :=
  match c.rank with
  | .Ten => "| " ++ c.rank.text ++ "      |" ++ " "
  | _ => "| " ++ c.rank.text ++ "       |" ++ " "

/-- One card column of the `main.rs` `card_printer::print_right_rank`,
`src/main.rs` lines 270-280. -/
def mRightRankCell (c : MCard) : String :=
  match c.rank with
  | .Ten => "|      " ++ c.rank.text ++ " |" ++ " "
  | _ => "|       " ++ c.rank.text ++ " |" ++ " "

/-- One card column of the `main.rs` `card_printer::print_suit`,
`src/main.rs` lines 282-288. -/
def mSuitCell (c : MCard) : String :=
  "|    " ++ c.suit.glyph ++ "    |" ++ " "

/-- `card_printer::print_end` of `src/main.rs` lines 242-248 as the line
it writes: the border column and separator, `size` times. -/
def m_print_end (size : Nat) : String :=
  String.join (List.replicate size "*---------* ")

/-- `card_printer::print_empty_section` of `src/main.rs` lines 250-256 as
the line it writes. -/
def m_print_empty_section (size : Nat) : String :=
  String.join (List.replicate size "|         | ")

/-- `card_printer::print_left_rank` of `src/main.rs` as the line it
writes. -/
def m_print_left_rank (deck : List MCard) : String :=
  String.join (deck.map mLeftRankCell)

/-- `card_printer::print_right_rank` of `src/main.rs` as the line it
writes. -/
def m_print_right_rank (deck : List MCard) : String :=
  String.join (deck.map mRightRankCell)

/-- `card_printer::print_suit` of `src/main.rs` as the line it writes. -/
def m_print_suit (deck : List MCard) : String :=
  String.join (deck.map mSuitCell)

/-- The header line of the `main.rs` `card_printer::display_hand`,
`src/main.rs` line 291: the player name right-aligned (space-padded on
the left) to width `deck.len() * 12 / 2`, followed by the possessive
"s Hand" suffix with its apostrophe. -/
def m_header (deck : List MCard) (name : String) : String :=
  String.mk (List.replicate (deck.length * 12 / 2 - name.length) ' ')
    ++ name ++ apostrophe ++ "s Hand"

/-- `card_printer::display_hand` of `src/main.rs` lines 290-301 as the
sequence of lines it writes: the name header, then border, left rank,
blank, suit, blank, right rank, border (no index line in this
variant). -/
def m_display_hand (deck : List MCard) (name : String) : List String :=
  [m_header deck name, m_print_end deck.length, m_print_left_rank deck,
   m_print_empty_section deck.length, m_print_suit deck,
   m_print_empty_section deck.length, m_print_right_rank deck,
   m_print_end deck.length]

/-! Helper lemmas about the derived card orders. -/

/-- Suit discriminants are distinct, so `ord` reflects equality. -/
theorem Suit.ord_inj : ∀ {s t : Suit}, s.ord = t.ord ↔ s = t := by
  intro s t
  cases s <;> cases t <;> simp [Suit.ord]

/-- Rank declaration indices are distinct. -/
theorem rankIdx_inj : ∀ {s t : Rank}, s.idx = t.idx ↔ s = t := by
  intro s t
  cases s <;> cases t <;> simp [Rank.idx]

/-- Card-state declaration indices are distinct. -/
theorem stateIdx_inj : ∀ {s t : CardState}, s.idx = t.idx ↔ s = t := by
  intro s t
  cases s <;> cases t <;> simp [CardState.idx]

/-- Equality of stateful cards is componentwise. -/
theorem cardEq_iff (a b : Card) :
    a = b ↔ (a.suit = b.suit ∧ a.rank = b.rank ∧ a.state = b.state) := by
  cases a
  cases b
  simp [Card.mk.injEq]

/-- Equality of `main.rs` cards is componentwise. -/
theorem mcardEq_iff (a b : MCard) :
    a = b ↔ (a.suit = b.suit ∧ a.rank = b.rank) := by
  cases a
  cases b
  simp [MCard.mk.injEq]

/-- The derived strict order on the stateful `Card` unfolded to its
numeric lexicographic form. -/
theorem cardLt_iff (a b : Card) :
    Card.lt a b = true ↔
      (a.suit.ord < b.suit.ord ∨
        (a.suit.ord = b.suit.ord ∧
          (a.rank.idx < b.rank.idx ∨
            (a.rank.idx = b.rank.idx ∧ a.state.idx < b.state.idx)))) := by
  simp only [Card.lt, Bool.or_eq_true, Bool.and_eq_true, decide_eq_true_eq,
    beq_iff_eq, ← Suit.ord_inj, ← rankIdx_inj]

/-- The derived non-strict order on the stateful `Card` unfolded to its
numeric lexicographic form. -/
theorem cardLe_iff (a b : Card) :
    Card.le a b = true ↔
      (a.suit.ord < b.suit.ord ∨
        (a.suit.ord = b.suit.ord ∧
          (a.rank.idx < b.rank.idx ∨
            (a.rank.idx = b.rank.idx ∧ a.state.idx ≤ b.state.idx)))) := by
  simp only [Card.le, Bool.or_eq_true, cardLt_iff, beq_iff_eq,
    cardEq_iff, ← Suit.ord_inj, ← rankIdx_inj, ← stateIdx_inj]
  omega

/-- The derived strict order on the `main.rs` card unfolded. -/
theorem mcardLt_iff (a b : MCard) :
    MCard.lt a b = true ↔
      (a.suit.ord < b.suit.ord ∨
        (a.suit.ord = b.suit.ord ∧ a.rank.idx < b.rank.idx)) := by
  simp only [MCard.lt, Bool.or_eq_true, Bool.and_eq_true, decide_eq_true_eq,
    beq_iff_eq, ← Suit.ord_inj, ← rankIdx_inj]

/-- The derived non-strict order on the `main.rs` card unfolded. -/
theorem mcardLe_iff (a b : MCard) :
    MCard.le a b = true ↔
      (a.suit.ord < b.suit.ord ∨
        (a.suit.ord = b.suit.ord ∧ a.rank.idx ≤ b.rank.idx)) := by
  simp only [MCard.le, Bool.or_eq_true, mcardLt_iff, beq_iff_eq,
    mcardEq_iff, ← Suit.ord_inj, ← rankIdx_inj]
  omega

/-- The stateful card order is transitive. -/
theorem cardLe_trans (a b c : Card) :
    Card.le a b = true → Card.le b c = true → Card.le a c = true := by
  simp only [cardLe_iff]
  omega

/-- The stateful card order is total. -/
theorem cardLe_total (a b : Card) :
    (Card.le a b || Card.le b a) = true := by
  simp only [Bool.or_eq_true, cardLe_iff]
  omega

/-- The `main.rs` card order is transitive. -/
theorem mcardLe_trans (a b c : MCard) :
    MCard.le a b = true → MCard.le b c = true → MCard.le a c = true := by
  simp only [mcardLe_iff]
  omega

/-- The `main.rs` card order is total. -/
theorem mcardLe_total (a b : MCard) :
    (MCard.le a b || MCard.le b a) = true := by
  simp only [Bool.or_eq_true, mcardLe_iff]
  omega

/-- Sorting a hand of stateful cards twice equals sorting it once. -/
theorem sortHandC_idem (l : List Card) : sortHandC (sortHandC l) = sortHandC l :=
  List.mergeSort_of_sorted
    (List.sorted_mergeSort cardLe_trans cardLe_total l)

/-- Sorting a hand of `main.rs` cards twice equals sorting it once. -/
theorem sortHand_idem (l : List MCard) : sortHand (sortHand l) = sortHand l :=
  List.mergeSort_of_sorted
    (List.sorted_mergeSort mcardLe_trans mcardLe_total l)

/-- C1: for every card, `Card::value()` equals the suit ordinal weight
(Spades=1, Diamonds=2, Hearts=3, Clubs=4) times the rank point value
(Two..Nine map to 2..9, Ten/Jack/Queen/King to 10, Ace to 11); in
particular value(Spades, Ace) = 11, value(Clubs, King) = 40 and
value(Hearts, Two) = 6.  Proved for both copies of the card type. -/
theorem C1_card_value :
    (∀ c : Card, c.value = specSuitWeight c.suit * specRankPoints c.rank) ∧
    (∀ c : MCard, c.value = specSuitWeight c.suit * specRankPoints c.rank) ∧
    (Card.new .Spades .Ace).value = 11 ∧
    (Card.new .Clubs .King).value = 40 ∧
    (Card.new .Hearts .Two).value = 6 ∧
    (MCard.new .Spades .Ace).value = 11 ∧
    (MCard.new .Clubs .King).value = 40 ∧
    (MCard.new .Hearts .Two).value = 6 :=
  ⟨by decide, by decide, rfl, rfl, rfl, rfl, rfl, rfl⟩

/-- C2: the deck builder yields exactly 52 cards, the (suit, rank) pairs
are the full Cartesian product with no duplicates, and the list is in
rank-major/suit-minor order (strictly ascending in the lexicographic
(rank, suit) key).  Proved for both copies of the deck builder. -/
theorem C2_deck_builder :
    DeckBuilder.new.length = 52 ∧
    MDeckBuilder.new.length = 52 ∧
    DeckBuilder.new.Nodup ∧
    MDeckBuilder.new.Nodup ∧
    (∀ s : Suit, ∀ r : Rank, Card.new s r ∈ DeckBuilder.new) ∧
    (∀ s : Suit, ∀ r : Rank, MCard.new s r ∈ MDeckBuilder.new) ∧
    DeckBuilder.new.Pairwise
      (fun a b => a.rank.idx < b.rank.idx ∨
        (a.rank = b.rank ∧ a.suit.ord < b.suit.ord)) ∧
    MDeckBuilder.new.Pairwise
      (fun a b => a.rank.idx < b.rank.idx ∨
        (a.rank = b.rank ∧ a.suit.ord < b.suit.ord)) := by
  refine ⟨rfl, rfl, by decide, by decide, by decide, by decide, by decide,
    by decide⟩

/-- C9 counterexample: the `main.rs` renderer, also cited by the claim,
prints a name header line even for an empty hand: for the empty hand and
the name "Player 0" the first emitted line is the possessive header, not
an empty zero-column line — content beyond the border lines. -/
theorem C9_counterexample :
    (m_display_hand [] "Player 0").getD 0 ""
        = "Player 0" ++ apostrophe ++ "s Hand" ∧
    (m_display_hand [] "Player 0").getD 0 "" ≠ "" := by
  refine ⟨rfl, by decide⟩

/-- C9 amended: rendering an empty hand does not fail in either renderer:
the `cards.rs` renderer emits exactly its fixed sequence of lines — 7
without the index line, 8 with it — every one the empty string (zero card
columns and no other content), while the `main.rs` renderer first prints
the name header line, its only content beyond the fixed 7 empty
zero-column lines that follow. -/
theorem C9_amended :
    display_hand [] false = ["", "", "", "", "", "", ""] ∧
    display_hand [] true = ["", "", "", "", "", "", "", ""] ∧
    (∀ name : String,
      m_display_hand [] name
        = (name ++ apostrophe ++ "s Hand")
            :: ["", "", "", "", "", "", ""]) := by
  refine ⟨rfl, rfl, ?_⟩
  intro name
  have hh : m_header ([] : List MCard) name
      = name ++ apostrophe ++ "s Hand" := by
    unfold m_header
    rw [show ([] : List MCard).length * 12 / 2 - name.length = 0 from by
      simp]
    rfl
  unfold m_display_hand
  rw [hh]
  rfl

/-- C3 counterexample: the claim's rule "if A.suit = B.suit then A < B iff
A.rank < B.rank" fails on the `cards.rs` `Card`, whose derived order also
compares the visibility state: for A = (Spades, Two, Visible) and
B = (Spades, Two, Hidden) we have equal suits and A < B, yet A.rank is not
below B.rank. -/
theorem C3_counterexample :
    (Card.mk .Spades .Two .Visible).suit = (Card.mk .Spades .Two .Hidden).suit ∧
    Card.lt (Card.mk .Spades .Two .Visible) (Card.mk .Spades .Two .Hidden) = true ∧
    ¬ Rank.idx (Card.mk .Spades .Two .Visible).rank <
        Rank.idx (Card.mk .Spades .Two .Hidden).rank := by
  refine ⟨rfl, by decide, by decide⟩

/-- C3 amended: the derived order on the `cards.rs` `Card` is a strict
total order comparing suit first, rank second and the visibility state
third; suit dominance holds as claimed, the equal-suit rule holds with the
state as final tie-break (and holds exactly as claimed on the `main.rs`
card, which has no state field), and sorting any sequence of cards is
idempotent for both card types. -/
theorem C3_amended :
    (∀ a : Card, Card.lt a a = false) ∧
    (∀ a b c : Card,
      Card.lt a b = true → Card.lt b c = true → Card.lt a c = true) ∧
    (∀ a b : Card, a ≠ b → Card.lt a b = true ∨ Card.lt b a = true) ∧
    (∀ a b : Card, a.suit.ord < b.suit.ord → Card.lt a b = true) ∧
    (∀ a b : Card, a.suit = b.suit →
      (Card.lt a b = true ↔
        (a.rank.idx < b.rank.idx ∨
          (a.rank = b.rank ∧ a.state = .Visible ∧ b.state = .Hidden)))) ∧
    (∀ a b : MCard, a.suit = b.suit →
      (MCard.lt a b = true ↔ a.rank.idx < b.rank.idx)) ∧
    (∀ l : List Card, sortHandC (sortHandC l) = sortHandC l) ∧
    (∀ l : List MCard, sortHand (sortHand l) = sortHand l) := by
  refine ⟨?_, ?_, ?_, ?_, ?_, ?_, sortHandC_idem, sortHand_idem⟩
  · intro a
    have h : ¬ Card.lt a a = true := by
      simp only [cardLt_iff]
      omega
    cases hlt : Card.lt a a
    · rfl
    · exact absurd hlt h
  · intro a b c
    simp only [cardLt_iff]
    omega
  · intro a b hne
    simp only [ne_eq, cardEq_iff, ← Suit.ord_inj, ← rankIdx_inj,
      ← stateIdx_inj] at hne
    simp only [cardLt_iff]
    omega
  · intro a b h
    simp only [cardLt_iff]
    omega
  · intro a b hsuit
    rw [← Suit.ord_inj] at hsuit
    have hv : (a.state = CardState.Visible ∧ b.state = CardState.Hidden) ↔
        a.state.idx < b.state.idx := by
      cases a.state <;> cases b.state <;> simp [CardState.idx]
    simp only [cardLt_iff, ← rankIdx_inj, hv]
    omega
  · intro a b hsuit
    rw [← Suit.ord_inj] at hsuit
    simp only [mcardLt_iff]
    omega

/-- Witness for C3 amended, at concrete cards: a Spades card precedes a
Diamonds card regardless of rank, and on equal suits with equal
(suit, rank) the visible card precedes the hidden one. -/
theorem C3_amended_witness :
    Card.lt (Card.mk .Spades .Ace .Hidden) (Card.mk .Diamonds .Two .Hidden)
      = true ∧
    (Card.lt (Card.mk .Hearts .Two .Visible) (Card.mk .Hearts .Two .Hidden)
        = true ↔
      ((Card.mk .Hearts .Two .Visible).rank.idx <
          (Card.mk .Hearts .Two .Hidden).rank.idx ∨
        ((Card.mk .Hearts .Two .Visible).rank =
            (Card.mk .Hearts .Two .Hidden).rank ∧
          (Card.mk .Hearts .Two .Visible).state = .Visible ∧
          (Card.mk .Hearts .Two .Hidden).state = .Hidden))) :=
  ⟨C3_amended.2.2.2.1 _ _ (by decide), C3_amended.2.2.2.2.1 _ _ (by decide)⟩

/-! Helper lemmas about the renderer. -/

/-- Folding string concatenation accumulates lengths. -/
theorem foldl_append_length (l : List String) :
    ∀ init : String,
      (l.foldl (· ++ ·) init).length = init.length + (l.map String.length).sum := by
  induction l with
  | nil => intro init; simp
  | cons a t ih =>
    intro init
    simp only [List.foldl_cons, List.map_cons, List.sum_cons, ih,
      String.length_append]
    omega

/-- The length of a joined list of strings is the sum of the lengths. -/
theorem join_length (l : List String) :
    (String.join l).length = (l.map String.length).sum := by
  have h := foldl_append_length l ""
  simpa [String.join] using h

/-- A joined map whose cells all render 12 characters wide has total width
12 times the number of cells. -/
theorem join_map_length {α : Type} (l : List α) (f : α → String)
    (h : ∀ a ∈ l, (f a).length = 12) :
    (String.join (l.map f)).length = 12 * l.length := by
  rw [join_length, List.map_map]
  have heq : l.map (String.length ∘ f) = l.map fun _ => 12 :=
    List.map_congr_left h
  rw [heq, List.map_const', List.sum_replicate]
  simp [Nat.mul_comm]

/-- Every cell of every row renderer is exactly 12 characters wide (the
11-character card column plus the separator space), for every card. -/
theorem cell_length_twelve :
    ∀ c : Card, (endCell c).length = 12 ∧ (emptyCell c).length = 12 ∧
      (leftRankCell c).length = 12 ∧ (rightRankCell c).length = 12 ∧
      (suitCell c).length = 12 := by
  decide

/-- Index cells are 12 characters wide for single-digit indices. -/
theorem indexCell_length : ∀ i < 10, (indexCell i).length = 12 := by
  decide

/-- C4 counterexample: the renderer prints the separator space after every
column, including the last, so for a one-card hand every line is 12
characters long, not 1 times (11 + 1) minus the trailing separator = 11 as
the claim states. -/
theorem C4_counterexample :
    ((display_hand [Card.mk .Spades .Two .Visible] false).getD 0 "").length
        = 12 ∧
    ¬ (12 : Nat) = 1 * (11 + 1) - 1 := by
  refine ⟨by decide, by decide⟩

/-- C4 amended: for every hand (of at most 5 cards, so that the optional
index digits stay single characters) every line produced by the renderer
has the same total width, 12 times the number of cards — that is N times
(column width 11 plus one separator) with the trailing separator included,
not removed; and a Ten column is exactly as wide as any other column, its
interior padding being one character shorter to compensate for the
two-character rank text. -/
theorem C4_amended :
    (∀ (hand : List Card) (si : Bool), hand.length ≤ 5 →
      ∀ line ∈ display_hand hand si, line.length = 12 * hand.length) ∧
    (∀ c c' : Card,
      (leftRankCell c).length = (leftRankCell c').length ∧
      (rightRankCell c).length = (rightRankCell c').length) ∧
    (∀ s : Suit,
      leftRankCell (Card.mk s .Ten .Visible) = "| 10      | " ∧
      rightRankCell (Card.mk s .Ten .Visible) = "|      10 | ") := by
  refine ⟨?_, ?_, by decide⟩
  · intro hand si hlen line hmem
    have hend : (print_end hand).length = 12 * hand.length :=
      join_map_length hand endCell fun a _ => (cell_length_twelve a).1
    have hempty : (print_empty_section hand).length = 12 * hand.length :=
      join_map_length hand emptyCell fun a _ => (cell_length_twelve a).2.1
    have hleft : (print_left_rank hand).length = 12 * hand.length :=
      join_map_length hand leftRankCell fun a _ => (cell_length_twelve a).2.2.1
    have hright : (print_right_rank hand).length = 12 * hand.length :=
      join_map_length hand rightRankCell fun a _ =>
        (cell_length_twelve a).2.2.2.1
    have hsuit : (print_suit hand).length = 12 * hand.length :=
      join_map_length hand suitCell fun a _ => (cell_length_twelve a).2.2.2.2
    have hidx : (print_index hand).length = 12 * hand.length := by
      have h12 : ∀ i ∈ List.range hand.length, (indexCell i).length = 12 := by
        intro i hi
        rw [List.mem_range] at hi
        exact indexCell_length i (by omega)
      have := join_map_length (List.range hand.length) indexCell h12
      simpa [print_index] using this
    simp only [display_hand, List.mem_append, List.mem_cons,
      List.mem_singleton, List.not_mem_nil, or_false] at hmem
    rcases hmem with (h | h | h | h | h | h | h) | h
    · subst h; exact hend
    · subst h; exact hleft
    · subst h; exact hempty
    · subst h; exact hsuit
    · subst h; exact hempty
    · subst h; exact hright
    · subst h; exact hend
    · cases si
      · simp at h
      · simp only [if_true, List.mem_singleton] at h
        subst h
        exact hidx
  · intro c c'
    exact ⟨by rw [(cell_length_twelve c).2.2.1, (cell_length_twelve c').2.2.1],
      by rw [(cell_length_twelve c).2.2.2.1, (cell_length_twelve c').2.2.2.1]⟩

/-- Witness for C4 amended at a concrete one-card hand of a Ten. -/
theorem C4_amended_witness :
    (print_end [Card.new .Spades .Ten]).length
        = 12 * [Card.new .Spades .Ten].length :=
  C4_amended.1 [Card.new .Spades .Ten] true (by decide)
    (print_end [Card.new .Spades .Ten]) (by simp [display_hand])

/-- Toggling a card's visibility twice restores the card exactly. -/
theorem Card.toggle_toggle (c : Card) : c.toggle.toggle = c := by
  obtain ⟨s, r, st⟩ := c
  cases st <;> rfl

/-- Writing back the element already at a position leaves a list
unchanged. -/
theorem set_self {α : Type} (l : List α) (i : Nat) (c : α)
    (h : l[i]? = some c) : l.set i c = l := by
  apply List.ext_getElem?
  intro n
  rw [List.getElem?_set]
  by_cases hin : i = n
  · subst hin
    have hlt : i < l.length := by
      by_contra hge
      rw [List.getElem?_eq_none (by omega)] at h
      exact Option.noConfusion h
    simp [hlt, h.symm]
  · simp [hin]

/-- C5: for every hand and position, a card whose visibility flag is
Hidden contributes the masked pattern (and no rank or suit glyph: the
masked cell consists only of frame, hash and space characters) to each of
the five interior render rows — left rank, both blank rows, suit, right
rank — while the border rows are the same cell as for a visible card; and
toggling the card back to Visible restores exactly the rendering the hand
had before. -/
theorem C5_masking :
    ∀ (hand : List Card) (i : Nat) (c : Card),
      hand[i]? = some c → c.state = .Hidden →
      ((hand.map leftRankCell)[i]? = some maskedCell ∧
        (hand.map emptyCell)[i]? = some maskedCell ∧
        (hand.map suitCell)[i]? = some maskedCell ∧
        (hand.map rightRankCell)[i]? = some maskedCell) ∧
      (∀ ch ∈ maskedCell.toList, ch = '|' ∨ ch = '#' ∨ ch = ' ') ∧
      (hand.map endCell)[i]? = some "*---------* " ∧
      c.toggle.state = .Visible ∧
      c.toggle.toggle = c ∧
      (∀ b : Bool,
        display_hand (hand.set i c.toggle.toggle) b = display_hand hand b) := by
  intro hand i c hget hst
  have hmask : ∀ (f : Card → String) (v : String),
      f c = v → (hand.map f)[i]? = some v := by
    intro f v hf
    rw [List.getElem?_map, hget]
    simp [hf]
  obtain ⟨s, r, st⟩ := c
  simp only [Card.state] at hst
  subst hst
  refine ⟨⟨hmask _ _ rfl, hmask _ _ rfl, hmask _ _ rfl, hmask _ _ rfl⟩,
    by decide, hmask _ _ rfl, rfl, rfl, ?_⟩
  intro b
  have hsetc : hand.set i (Card.mk s r .Hidden) = hand := set_self _ _ _ hget
  rw [show (Card.mk s r CardState.Hidden).toggle.toggle
      = Card.mk s r CardState.Hidden from rfl, hsetc]

/-- Witness for C5 at a concrete one-card hand: a freshly built Ace of
Spades is hidden by default. -/
theorem C5_masking_witness :
    (([Card.new .Spades .Ace].map leftRankCell)[0]? = some maskedCell ∧
      ([Card.new .Spades .Ace].map emptyCell)[0]? = some maskedCell ∧
      ([Card.new .Spades .Ace].map suitCell)[0]? = some maskedCell ∧
      ([Card.new .Spades .Ace].map rightRankCell)[0]? = some maskedCell) ∧
    (∀ ch ∈ maskedCell.toList, ch = '|' ∨ ch = '#' ∨ ch = ' ') ∧
    ([Card.new .Spades .Ace].map endCell)[0]? = some "*---------* " ∧
    (Card.new .Spades .Ace).toggle.state = .Visible ∧
    (Card.new .Spades .Ace).toggle.toggle = Card.new .Spades .Ace ∧
    (∀ b : Bool,
      display_hand ([Card.new .Spades .Ace].set 0
          (Card.new .Spades .Ace).toggle.toggle) b
        = display_hand [Card.new .Spades .Ace] b) :=
  C5_masking [Card.new .Spades .Ace] 0 (Card.new .Spades .Ace) rfl rfl

/-- Specification of the `show_winner` fold: starting from accumulator
(i, w, ws) it either keeps w (and every remaining score is at most ws) or
returns the position of the first strict maximum among the remaining
hands. -/
theorem winnerAux_spec :
    ∀ (l : List (List MCard)) (i w ws : Nat),
      (winnerAux l i w ws = w ∧
        ∀ j, j < l.length → score_hand (l.getD j []) ≤ ws) ∨
      (∃ j, j < l.length ∧ winnerAux l i w ws = i + j ∧
        ws < score_hand (l.getD j []) ∧
        (∀ k, k < l.length →
          score_hand (l.getD k []) ≤ score_hand (l.getD j [])) ∧
        (∀ k, k < j →
          score_hand (l.getD k []) < score_hand (l.getD j []))) := by
  intro l
  induction l with
  | nil =>
    intro i w ws
    left
    refine ⟨rfl, ?_⟩
    intro j hj
    simp at hj
  | cons h t ih =>
    intro i w ws
    by_cases hgt : score_hand h > ws
    · rw [show winnerAux (h :: t) i w ws
          = winnerAux t (i + 1) i (score_hand h) from by
        simp [winnerAux, hgt]]
      rcases ih (i + 1) i (score_hand h) with
        ⟨heq, hall⟩ | ⟨j, hj, heq, hws, hmax, hfirst⟩
      · right
        refine ⟨0, by simp, by rw [heq]; omega, by simpa using hgt, ?_, ?_⟩
        · intro k hk
          cases k with
          | zero => simp
          | succ k' =>
            rw [List.getD_cons_succ, List.getD_cons_zero]
            have hk' : k' < t.length := by
              simp only [List.length_cons] at hk
              omega
            exact hall k' hk'
        · intro k hk
          omega
      · right
        have hj' : j + 1 < (h :: t).length := by
          simp only [List.length_cons]
          omega
        refine ⟨j + 1, hj', by rw [heq]; omega, ?_, ?_, ?_⟩
        · rw [List.getD_cons_succ]
          omega
        · intro k hk
          rw [List.getD_cons_succ]
          cases k with
          | zero =>
            rw [List.getD_cons_zero]
            omega
          | succ k' =>
            rw [List.getD_cons_succ]
            have hk' : k' < t.length := by
              simp only [List.length_cons] at hk
              omega
            exact hmax k' hk'
        · intro k hk
          rw [List.getD_cons_succ]
          cases k with
          | zero =>
            rw [List.getD_cons_zero]
            omega
          | succ k' =>
            rw [List.getD_cons_succ]
            exact hfirst k' (by omega)
    · rw [show winnerAux (h :: t) i w ws = winnerAux t (i + 1) w ws from by
        simp [winnerAux, hgt]]
      rcases ih (i + 1) w ws with
        ⟨heq, hall⟩ | ⟨j, hj, heq, hws, hmax, hfirst⟩
      · left
        refine ⟨heq, ?_⟩
        intro k hk
        cases k with
        | zero =>
          rw [List.getD_cons_zero]
          omega
        | succ k' =>
          rw [List.getD_cons_succ]
          have hk' : k' < t.length := by
            simp only [List.length_cons] at hk
            omega
          exact hall k' hk'
      · right
        have hj' : j + 1 < (h :: t).length := by
          simp only [List.length_cons]
          omega
        refine ⟨j + 1, hj', by rw [heq]; omega, ?_, ?_, ?_⟩
        · rw [List.getD_cons_succ]
          exact hws
        · intro k hk
          rw [List.getD_cons_succ]
          cases k with
          | zero =>
            rw [List.getD_cons_zero]
            omega
          | succ k' =>
            rw [List.getD_cons_succ]
            have hk' : k' < t.length := by
              simp only [List.length_cons] at hk
              omega
            exact hmax k' hk'
        · intro k hk
          rw [List.getD_cons_succ]
          cases k with
          | zero =>
            rw [List.getD_cons_zero]
            omega
          | succ k' =>
            rw [List.getD_cons_succ]
            exact hfirst k' (by omega)

/-- The winner printed by `show_winner` scores at least every other hand,
strictly more than every earlier hand (so ties go to the first player
reaching the maximum), and is a valid player index when there are
players. -/
theorem show_winner_spec (g : Game) :
    (∀ j, j < g.players.length →
      score_hand (g.players.getD j []) ≤
        score_hand (g.players.getD g.show_winner [])) ∧
    (∀ k, k < g.show_winner →
      score_hand (g.players.getD k []) <
        score_hand (g.players.getD g.show_winner [])) ∧
    (0 < g.players.length → g.show_winner < g.players.length) := by
  unfold Game.show_winner
  rcases winnerAux_spec g.players 0 0 0 with
    ⟨heq, hall⟩ | ⟨j, hj, heq, hws, hmax, hfirst⟩
  · rw [heq]
    refine ⟨?_, ?_, ?_⟩
    · intro k hk
      have := hall k hk
      omega
    · intro k hk
      omega
    · intro h
      omega
  · rw [heq]
    simp only [Nat.zero_add]
    exact ⟨hmax, hfirst, fun _ => hj⟩

/-- A finished game is returned unchanged by the loop, whatever the
fuel. -/
theorem run_of_over (fuel : Nat) (g : Game) (h : g.is_over = true) :
    g.run fuel = some g := by
  cases fuel with
  | zero => simp [Game.run, h]
  | succ f => simp [Game.run, h]

/-- One successful iteration of the game loop. -/
theorem run_step_some (f : Nat) (g g2 : Game) (hno : g.is_over = false)
    (hadv : g.advance = some g2) : g.run (f + 1) = g2.run f := by
  simp [Game.run, hno, hadv]

/-- On a non-empty deck with at least one player, `advance` pops the last
card of the deck, appends it to the hand of player `turn mod players`,
re-sorts that hand and increments the turn. -/
theorem advance_eq (g : Game) (hne : g.deck ≠ []) (hp : 0 < g.players.length) :
    g.advance = some
      { deck := g.deck.dropLast
        players := g.players.set (g.turn % g.players.length)
          (sortHand (g.players.getD (g.turn % g.players.length) []
            ++ [g.deck.getLast hne]))
        turn := g.turn + 1 } := by
  unfold Game.advance
  rw [List.getLast?_eq_getLast g.deck hne]
  have h0 : ¬ g.players.length = 0 := by omega
  simp [h0]

/-- A game whose every hand already holds 3 cards is over, so the loop
returns it unchanged. -/
theorem run_done (g : Game) (n fuel : Nat)
    (hmap3 : g.players.map List.length = List.replicate n 3) :
    g.run fuel = some g := by
  have hover : g.is_over = true := by
    unfold Game.is_over
    rw [List.all_eq_true]
    intro hand hmem
    have hmem2 : hand.length ∈ g.players.map List.length :=
      List.mem_map_of_mem List.length hmem
    rw [hmap3] at hmem2
    have h3 : hand.length = 3 := List.eq_of_mem_replicate hmem2
    rw [decide_eq_true_eq, h3]
    omega
  exact run_of_over fuel g hover

/-- Round-robin dealing: from a state at turn q·n + r (players 0..r-1
holding q+1 cards, the rest q, and the deck being the untouched prefix of
the original shuffled deck d), the loop runs to completion at turn 3·n
with every hand holding exactly 3 cards and the deck the prefix of d of
length |d| - 3·n.  Fuel only needs to cover the remaining deals. -/
theorem run_deals (n : Nat) (hn : 1 ≤ n) (d : List MCard)
    (hd : 3 * n ≤ d.length) :
    ∀ (fuel q r : Nat) (g : Game), r < n →
      g.turn = q * n + r →
      q * n + r ≤ 3 * n →
      3 * n - (q * n + r) ≤ fuel →
      g.deck = d.take (d.length - (q * n + r)) →
      g.players.length = n →
      g.players.map List.length
        = List.replicate r (q + 1) ++ List.replicate (n - r) q →
      ∃ gF, g.run fuel = some gF ∧ gF.turn = 3 * n ∧
        gF.deck = d.take (d.length - 3 * n) ∧
        gF.players.length = n ∧
        gF.players.map List.length = List.replicate n 3 := by
  intro fuel
  induction fuel with
  | zero =>
    intro q r g hr ht hle hfuel hdeck hplen hmap
    have heq : q * n + r = 3 * n := by omega
    have hq3 : 3 ≤ q := by
      by_contra hq'
      have h2 : q * n ≤ 2 * n := Nat.mul_le_mul_right n (by omega)
      omega
    have h3n : 3 * n ≤ q * n := Nat.mul_le_mul_right n hq3
    have hr0 : r = 0 := by omega
    have hqn : q * n = 3 * n := by omega
    have hq : q = 3 := Nat.eq_of_mul_eq_mul_right (by omega) hqn
    subst hr0
    subst hq
    have hmap3 : g.players.map List.length = List.replicate n 3 := by
      simpa using hmap
    refine ⟨g, run_done g n 0 hmap3, by omega, ?_, hplen, hmap3⟩
    rw [hdeck]
    congr 1
  | succ f ih =>
    intro q r g hr ht hle hfuel hdeck hplen hmap
    by_cases hq3 : 3 ≤ q
    · have h3n : 3 * n ≤ q * n := Nat.mul_le_mul_right n hq3
      have hr0 : r = 0 := by omega
      have hqn : q * n = 3 * n := by omega
      have hq : q = 3 := Nat.eq_of_mul_eq_mul_right (by omega) hqn
      subst hr0
      subst hq
      have hmap3 : g.players.map List.length = List.replicate n 3 := by
        simpa using hmap
      refine ⟨g, run_done g n (f + 1) hmap3, by omega, ?_, hplen, hmap3⟩
      rw [hdeck]
      congr 1
    · push_neg at hq3
      have h2 : q * n ≤ 2 * n := Nat.mul_le_mul_right n (by omega)
      have htlt : q * n + r < 3 * n := by omega
      have hnover : g.is_over = false := by
        cases hio : g.is_over
        · rfl
        · exfalso
          unfold Game.is_over at hio
          rw [List.all_eq_true] at hio
          have hqmem : q ∈ g.players.map List.length := by
            rw [hmap]
            apply List.mem_append_right
            rw [List.mem_replicate]
            exact ⟨by omega, rfl⟩
          obtain ⟨hand, hhmem, hhlen⟩ := List.mem_map.mp hqmem
          have hlt := hio hand hhmem
          rw [decide_eq_true_eq] at hlt
          omega
      have hdlen : g.deck.length = d.length - (q * n + r) := by
        rw [hdeck, List.length_take]
        omega
      have hdne : g.deck ≠ [] := by
        rw [← List.length_pos, hdlen]
        omega
      have hplen0 : 0 < g.players.length := by omega
      have hadv := advance_eq g hdne hplen0
      have hmod : g.turn % g.players.length = r := by
        rw [hplen, ht, Nat.mul_comm, Nat.mul_add_mod, Nat.mod_eq_of_lt hr]
      rw [hmod] at hadv
      have hgetD : (g.players.getD r []).length = q := by
        have h1 : (g.players.map List.length).getD r 0 = q := by
          have hlr : (List.replicate r (q + 1)).length ≤ r := by
            rw [List.length_replicate]
          rw [hmap, List.getD_eq_getElem?_getD,
            List.getElem?_append_right hlr, List.length_replicate,
            Nat.sub_self, List.getElem?_replicate, if_pos (by omega)]
          rfl
        have h1b : (g.players.map List.length).getD r 0
            = (g.players.getD r []).length := by
          rw [List.getD_eq_getElem?_getD, List.getD_eq_getElem?_getD,
            List.getElem?_map]
          cases hpr : g.players[r]?
          · rfl
          · rfl
        omega
      have hnewlen :
          (sortHand (g.players.getD r [] ++ [g.deck.getLast hdne])).length
            = q + 1 := by
        unfold sortHand
        rw [List.length_mergeSort, List.length_append, hgetD]
        rfl
      have hmapset : (g.players.map List.length).set r (q + 1)
          = List.replicate (r + 1) (q + 1) ++ List.replicate (n - (r + 1)) q := by
        obtain ⟨k, hk⟩ : ∃ k, n - r = k + 1 := ⟨n - r - 1, by omega⟩
        have hk2 : n - (r + 1) = k := by omega
        rw [hmap, List.set_append, if_neg (by rw [List.length_replicate]; omega),
          List.length_replicate, Nat.sub_self, hk, List.replicate_succ,
          List.set_cons_zero, List.replicate_succ', hk2, List.append_assoc,
          List.singleton_append]
      have hdeck2 : g.deck.dropLast
          = d.take (d.length - (q * n + r + 1)) := by
        rw [hdeck, List.dropLast_eq_take, List.length_take, List.take_take]
        congr 1
        omega
      have hmap2 : (g.players.set r
            (sortHand (g.players.getD r [] ++ [g.deck.getLast hdne]))).map
              List.length
          = List.replicate (r + 1) (q + 1) ++ List.replicate (n - (r + 1)) q := by
        rw [List.map_set, hnewlen, hmapset]
      rw [run_step_some f g _ hnover hadv]
      by_cases hrn : r + 1 < n
      · refine ih q (r + 1) _ hrn ?_ (by omega) (by omega) ?_ ?_ ?_
        · show g.turn + 1 = q * n + (r + 1)
          omega
        · show g.deck.dropLast = d.take (d.length - (q * n + (r + 1)))
          rw [hdeck2]
          congr 1
        · show (g.players.set r _).length = n
          rw [List.length_set, hplen]
        · exact hmap2
      · have hrn' : r + 1 = n := by omega
        have hsm : (q + 1) * n = q * n + n := Nat.succ_mul q n
        refine ih (q + 1) 0 _ (by omega) ?_ (by omega) (by omega) ?_ ?_ ?_
        · show g.turn + 1 = (q + 1) * n + 0
          omega
        · show g.deck.dropLast = d.take (d.length - ((q + 1) * n + 0))
          rw [hdeck2]
          congr 2
          omega
        · show (g.players.set r _).length = n
          rw [List.length_set, hplen]
        · rw [hmap2, hrn']
          simp

/-- Flattening a list of empty hands gives nothing. -/
theorem flatten_replicate_nil {α : Type} :
    ∀ p : Nat, (List.replicate p ([] : List α)).flatten = [] := by
  intro p
  induction p with
  | zero => rfl
  | succ p ih => rw [List.replicate_succ, List.flatten_cons, ih]; rfl

/-- Replacing position i of a list of lists: the flattened result together
with the old entry is a permutation of the new entry together with the old
flattened list. -/
theorem flatten_set_perm {α : Type} :
    ∀ (l : List (List α)) (i : Nat) (x : List α), i < l.length →
      ((l.set i x).flatten ++ l.getD i []).Perm (x ++ l.flatten) := by
  intro l
  induction l with
  | nil =>
    intro i x hi
    simp at hi
  | cons h t ih =>
    intro i x hi
    cases i with
    | zero =>
      simp only [List.set_cons_zero, List.flatten_cons, List.getD_cons_zero]
      rw [List.append_assoc]
      exact List.Perm.append_left x List.perm_append_comm
    | succ i' =>
      simp only [List.set_cons_succ, List.flatten_cons, List.getD_cons_succ]
      have hi' : i' < t.length := by
        simp only [List.length_cons] at hi
        omega
      have hih := ih i' x hi'
      have step1 : ((h ++ (t.set i' x).flatten) ++ t.getD i' []).Perm
          (h ++ (x ++ t.flatten)) := by
        rw [List.append_assoc]
        exact List.Perm.append_left h hih
      have step2 : (h ++ (x ++ t.flatten)).Perm (x ++ (h ++ t.flatten)) := by
        rw [← List.append_assoc, ← List.append_assoc]
        exact List.Perm.append_right _ List.perm_append_comm
      exact step1.trans step2

/-- The deal panics (returns `none`) on an empty deck. -/
theorem advance_none_of_deck_nil (g : Game) (h : g.deck = []) :
    g.advance = none := by
  unfold Game.advance
  rw [h]
  rfl

/-- The deal panics (returns `none`) when there are no players. -/
theorem advance_none_of_players_nil (g : Game) (h : g.players.length = 0) :
    g.advance = none := by
  unfold Game.advance
  cases hgl : g.deck.getLast?
  · rfl
  · simp [h]

/-- C8: for every reachable game state, the deck together with all hands
is a permutation of the original 52-card deck — so no card is duplicated
or lost: shuffling permutes the deck without changing its contents and
each deal moves exactly one card from the deck into one hand.  The
combined collection has no duplicates and always holds 52 cards. -/
theorem C8_conservation :
    ∀ (p : Nat) (g : Game), Reachable p g →
      (g.deck ++ g.players.flatten).Perm MDeckBuilder.new ∧
      (g.deck ++ g.players.flatten).Nodup ∧
      (g.deck ++ g.players.flatten).length = 52 := by
  have hnodup : MDeckBuilder.new.Nodup := by decide
  intro p g hreach
  have hperm : (g.deck ++ g.players.flatten).Perm MDeckBuilder.new := by
    induction hreach with
    | spawned =>
      simp only [GameBuilder.spawn]
      rw [flatten_replicate_nil, List.append_nil]
    | shuffled hr hp2 ih =>
      exact List.Perm.trans (List.Perm.append_right _ hp2.symm) ih
    | advanced hr hadv ih =>
      rename_i gp g2
      have hdne : gp.deck ≠ [] := by
        intro hnil
        rw [advance_none_of_deck_nil gp hnil] at hadv
        exact Option.noConfusion hadv
      have hpl : gp.players.length ≠ 0 := by
        intro h0
        rw [advance_none_of_players_nil gp h0] at hadv
        exact Option.noConfusion hadv
      rw [advance_eq gp hdne (by omega), Option.some_inj] at hadv
      subst hadv
      have hdecomp : gp.deck.dropLast ++ [gp.deck.getLast hdne] = gp.deck :=
        List.dropLast_append_getLast hdne
      have hilt : gp.turn % gp.players.length < gp.players.length :=
        Nat.mod_lt _ (by omega)
      refine List.Perm.trans ?_ ih
      rw [show gp.deck ++ gp.players.flatten
          = gp.deck.dropLast
            ++ ([gp.deck.getLast hdne] ++ gp.players.flatten) from by
        rw [← List.append_assoc, hdecomp]]
      apply List.Perm.append_left
      have h2 : (sortHand (gp.players.getD (gp.turn % gp.players.length) []
            ++ [gp.deck.getLast hdne])).Perm
          (gp.players.getD (gp.turn % gp.players.length) []
            ++ [gp.deck.getLast hdne]) :=
        List.mergeSort_perm _ _
      have h3 : ((gp.players.set (gp.turn % gp.players.length)
              (sortHand (gp.players.getD (gp.turn % gp.players.length) []
                ++ [gp.deck.getLast hdne]))).flatten
            ++ gp.players.getD (gp.turn % gp.players.length) []).Perm
          (([gp.deck.getLast hdne] ++ gp.players.flatten)
            ++ gp.players.getD (gp.turn % gp.players.length) []) := by
        refine (flatten_set_perm gp.players _ _ hilt).trans ?_
        refine (List.Perm.append_right _ h2).trans ?_
        have step1 : ((gp.players.getD (gp.turn % gp.players.length) []
              ++ [gp.deck.getLast hdne]) ++ gp.players.flatten).Perm
            ([gp.deck.getLast hdne]
              ++ (gp.players.getD (gp.turn % gp.players.length) []
                ++ gp.players.flatten)) := by
          rw [← List.append_assoc]
          exact List.Perm.append_right _ List.perm_append_comm
        have step2 : ([gp.deck.getLast hdne]
              ++ (gp.players.getD (gp.turn % gp.players.length) []
                ++ gp.players.flatten)).Perm
            (([gp.deck.getLast hdne] ++ gp.players.flatten)
              ++ gp.players.getD (gp.turn % gp.players.length) []) := by
          rw [List.append_assoc]
          apply List.Perm.append_left
          exact List.perm_append_comm
        exact step1.trans step2
      exact (List.perm_append_right_iff _).mp h3
  refine ⟨hperm, List.Perm.nodup hperm.symm hnodup, ?_⟩
  rw [List.Perm.length_eq hperm]
  rfl

/-- Witness for C8 at the freshly spawned 3-player game. -/
theorem C8_conservation_witness :
    (((GameBuilder.mk 3).spawn.deck
        ++ (GameBuilder.mk 3).spawn.players.flatten).Perm MDeckBuilder.new ∧
      ((GameBuilder.mk 3).spawn.deck
        ++ (GameBuilder.mk 3).spawn.players.flatten).Nodup ∧
      ((GameBuilder.mk 3).spawn.deck
        ++ (GameBuilder.mk 3).spawn.players.flatten).length = 52) :=
  C8_conservation 3 (GameBuilder.mk 3).spawn Reachable.spawned

/-- C7: in a 3-player game on any shuffled 52-card deck, the loop deals
round-robin (player = turn mod 3, one card popped off the deck per turn)
until `is_over` holds: every player ends with exactly 3 cards, exactly 9
cards are consumed leaving the 43-card prefix of the shuffled deck, and
the declared winner scores at least every other hand and strictly more
than every earlier hand, so ties go to the first (lowest-index) player
reaching the maximum sum. -/
theorem C7_three_player_game :
    ∀ d : List MCard, d.Perm MDeckBuilder.new →
      ∃ gF, (Game.mk d (List.replicate 3 []) 0).run 52 = some gF ∧
        gF.players.map List.length = [3, 3, 3] ∧
        gF.deck = d.take 43 ∧
        gF.deck.length = 43 ∧
        gF.turn = 9 ∧
        gF.show_winner < 3 ∧
        (∀ j, j < 3 →
          score_hand (gF.players.getD j []) ≤
            score_hand (gF.players.getD gF.show_winner [])) ∧
        (∀ j, j < gF.show_winner →
          score_hand (gF.players.getD j []) <
            score_hand (gF.players.getD gF.show_winner [])) := by
  intro d hperm
  have hlen : d.length = 52 := by
    rw [hperm.length_eq]
    rfl
  obtain ⟨gF, hrun, hturn, hdeck, hplen, hmap⟩ :=
    run_deals 3 (by omega) d (by omega) 52 0 0
      (Game.mk d (List.replicate 3 []) 0) (by omega) rfl (by omega) (by omega)
      (by simp) (by simp) (by simp [List.map_replicate])
  have hdeck43 : gF.deck = d.take 43 := by
    rw [hdeck]
    congr 1
    omega
  have hw := show_winner_spec gF
  refine ⟨gF, hrun, by rw [hmap]; rfl, hdeck43, ?_, by omega, ?_, ?_, ?_⟩
  · rw [hdeck43, List.length_take]
    omega
  · have := hw.2.2
    omega
  · intro j hj
    exact hw.1 j (by omega)
  · exact hw.2.1

/-- Witness for C7 at the unshuffled deck (the identity permutation). -/
theorem C7_three_player_game_witness :
    ∃ gF, (Game.mk MDeckBuilder.new (List.replicate 3 []) 0).run 52
        = some gF ∧
      gF.players.map List.length = [3, 3, 3] ∧
      gF.deck = MDeckBuilder.new.take 43 ∧
      gF.deck.length = 43 ∧
      gF.turn = 9 ∧
      gF.show_winner < 3 ∧
      (∀ j, j < 3 →
        score_hand (gF.players.getD j []) ≤
          score_hand (gF.players.getD gF.show_winner [])) ∧
      (∀ j, j < gF.show_winner →
        score_hand (gF.players.getD j []) <
          score_hand (gF.players.getD gF.show_winner [])) :=
  C7_three_player_game MDeckBuilder.new (List.Perm.refl _)

/-- C10: for every player count 2..=5 and every 52-card deck, the game
loop (which re-checks `is_over` before each deal) runs to completion
without the deal ever returning `none` — in the embedding `advance`
returns `none` exactly on the `unwrap` panic branch, so a `some` result
for the whole run means the pop never hits an empty deck; only 3·p ≤ 15 of
the 52 cards are ever popped. -/
theorem C10_unwrap_unreachable :
    ∀ (p : Nat) (d : List MCard), 2 ≤ p → p ≤ 5 → d.length = 52 →
      ∃ gF, (Game.mk d (List.replicate p []) 0).run 52 = some gF ∧
        gF.players.map List.length = List.replicate p 3 ∧
        gF.deck.length = 52 - 3 * p ∧
        gF.turn = 3 * p := by
  intro p d hp2 hp5 hlen
  obtain ⟨gF, hrun, hturn, hdeck, hplen, hmap⟩ :=
    run_deals p (by omega) d (by omega) 52 0 0
      (Game.mk d (List.replicate p []) 0) (by omega)
      (by show (0 : Nat) = 0 * p + 0; omega) (by omega) (by omega)
      (by rw [show d.length - (0 * p + 0) = d.length from by omega,
        List.take_length])
      (by rw [List.length_replicate])
      (by simp [List.map_replicate])
  refine ⟨gF, hrun, hmap, ?_, hturn⟩
  rw [hdeck, List.length_take]
  omega

/-- Witness for C10 at 3 players on the unshuffled deck. -/
theorem C10_unwrap_unreachable_witness :
    ∃ gF, (Game.mk MDeckBuilder.new (List.replicate 3 []) 0).run 52
        = some gF ∧
      gF.players.map List.length = List.replicate 3 3 ∧
      gF.deck.length = 52 - 3 * 3 ∧
      gF.turn = 3 * 3 :=
  C10_unwrap_unreachable 3 MDeckBuilder.new (by omega) (by omega) rfl

/-- C6 counterexample: the spec-side configuration accepts per-hand card
counts of 4 and 5, but the source's builder carries no card count at all —
the accepted 3-player configuration plays to the hardcoded 3 cards per
hand, so no construction-time card-count validation exists in the code. -/
theorem C6_counterexample :
    specConfigOk 4 3 = true ∧ specConfigOk 5 3 = true ∧
    GameBuilder.new.players 3 = Except.ok (GameBuilder.mk 3) ∧
    (∃ gF, (GameBuilder.mk 3).spawn.run 52 = some gF ∧
      gF.players.map List.length = List.replicate 3 3) ∧
    (3 : Nat) ≠ 4 ∧ (3 : Nat) ≠ 5 := by
  refine ⟨by decide, by decide, rfl, ?_, by decide, by decide⟩
  obtain ⟨gF, hrun, hturn, hdeck, hplen, hmap⟩ :=
    run_deals 3 (by omega) MDeckBuilder.new (by decide) 52 0 0
      (GameBuilder.mk 3).spawn (by omega) rfl (by omega) (by omega)
      (by simp [GameBuilder.spawn]) (by simp [GameBuilder.spawn])
      (by simp [GameBuilder.spawn, List.map_replicate])
  exact ⟨gF, hrun, hmap⟩

/-- C6 amended: only the player count is validated at construction time:
counts 0 and 1 and counts above 5 fail immediately with the panic message
and are never clamped or defaulted, while counts 2..=5 are stored
unchanged; the cards-per-hand count is not configurable — spawning uses
only the player count, and every completed game deals exactly 3 cards to
every hand whatever the (valid) player count. -/
theorem C6_amended :
    (∀ count : Nat, count ≤ 1 →
      GameBuilder.new.players count
        = Except.error "Must have more than 1 player.") ∧
    (∀ count : Nat, 2 ≤ count → count ≤ 5 →
      GameBuilder.new.players count = Except.ok (GameBuilder.mk count)) ∧
    (∀ count : Nat, 6 ≤ count →
      GameBuilder.new.players count = Except.error "Too many players.") ∧
    (∀ gb : GameBuilder, gb.spawn.deck = MDeckBuilder.new ∧
      gb.spawn.players = List.replicate gb.player_count [] ∧
      gb.spawn.turn = 0) ∧
    (∀ (p : Nat) (d : List MCard), 2 ≤ p → p ≤ 5 → d.length = 52 →
      ∀ gF, (Game.mk d (List.replicate p []) 0).run 52 = some gF →
        gF.players.map List.length = List.replicate p 3) := by
  refine ⟨?_, ?_, ?_, ?_, ?_⟩
  · intro count h
    unfold GameBuilder.players
    rw [if_pos h]
  · intro count h2 h5
    unfold GameBuilder.players
    rw [if_neg (by omega), if_pos h5]
  · intro count h
    unfold GameBuilder.players
    rw [if_neg (by omega), if_neg (by omega)]
  · intro gb
    exact ⟨rfl, rfl, rfl⟩
  · intro p d hp2 hp5 hlen gF hrun
    obtain ⟨gF', hrun', hturn', hdeck', hplen', hmap'⟩ :=
      run_deals p (by omega) d (by omega) 52 0 0
        (Game.mk d (List.replicate p []) 0) (by omega)
        (by show (0 : Nat) = 0 * p + 0; omega) (by omega) (by omega)
        (by rw [show d.length - (0 * p + 0) = d.length from by omega,
          List.take_length])
        (by rw [List.length_replicate])
        (by simp [List.map_replicate])
    rw [hrun] at hrun'
    rw [Option.some_inj] at hrun'
    rw [hrun']
    exact hmap'

/-- Witness for C6 amended at concrete counts 1, 4 and 9. -/
theorem C6_amended_witness :
    GameBuilder.new.players 1
        = Except.error "Must have more than 1 player." ∧
    GameBuilder.new.players 4 = Except.ok (GameBuilder.mk 4) ∧
    GameBuilder.new.players 9 = Except.error "Too many players." :=
  ⟨C6_amended.1 1 (by decide), C6_amended.2.1 4 (by decide) (by decide),
    C6_amended.2.2.1 9 (by decide)⟩
